import Mathlib

/-!
Verification of the graph-learning layers in `src/main/layers.py` of the
skt-dna repository: `AdjConstructor`, `InformationPropagtionLayer`, and
`GraphConvolutionModule`, together with their shared adjacency
normalization `norm_adj`.

The embedding uses exact rational arithmetic (`ℚ`) in place of floating
point.  Tensors are total functions out of `Fin` index types:

* a square adjacency matrix is `Mat n := Fin n → Fin n → ℚ`;
* a rank-4 feature tensor (batch, channel, node, time) is
  `Feat b c n l := Fin b → Fin c → Fin n → Fin l → ℚ`.

The saturation nonlinearity `torch.tanh` is transcendental, so it is
carried as an explicit function parameter `tanhFn : ℚ → ℚ`; theorems that
need a mathematical property of `tanh` (it is odd) take that property as a
hypothesis, which real `tanh` satisfies.

Fallible behaviour of the Python code is made explicit:

* `torch.topk` raising when `top_k` exceeds the row length becomes the
  `Option` guard in `adjForward`;
* the `getattr(self, 'gcl1')` lookup in `GraphConvolutionModule.forward`,
  which raises `AttributeError` when the module was built with `k = 0`
  (no `gcl` sublayer exists), becomes the `1 ≤ k` guard of `gcm_forward3`
  and the `k = 1` guard of `gcm_forward2`;
* `A_tilde.permute(0,2,1)` raising on a rank-2 tensor (hops 2..k with a
  rank-2 adjacency) makes `gcm_forward2` return `none` for `k ≥ 2`;
* the `assert` on the adjacency rank in `norm_adj` becomes the
  `Except String` result of the shape-indexed wrapper `normAdjT`.

Training-mode randomness (`torch.rand_like`) is an explicit `rand`
argument so that determinism of evaluation mode is a statement about two
arbitrary random draws.
-/

namespace SKT

/-- Square rational matrix indexed by nodes, the shape of one adjacency
matrix slice. -/
abbrev Mat (n : ℕ) := Fin n → Fin n → ℚ

/-- Rank-4 feature tensor with axes (batch, channel, node, time). -/
abbrev Feat (b c n l : ℕ) := Fin b → Fin c → Fin n → Fin l → ℚ

/-- Rational rectified linear unit, `torch.relu`. -/
def relu (x : ℚ) : ℚ := max x 0

/-- Row sum of a square matrix, `torch.sum(A, dim=-1)`. -/
def rowSum {n : ℕ} (A : Mat n) (i : Fin n) : ℚ := ∑ j, A i j

/-- Shared adjacency normalization `norm_adj` on a rank-2 matrix: the
entry `(i, j)` of `diag(1 / (1 + rowsum(A))) @ (A + I)`.  This is the
body of both `InformationPropagtionLayer.norm_adj` and
`GraphConvolutionModule.norm_adj` (the two methods are identical). -/
def normAdj {n : ℕ} (A : Mat n) : Mat n :=
  fun i j => (1 / (1 + rowSum A i)) * (A i j + if i = j then 1 else 0)

/-- Rank-3 branch of `norm_adj`: the diagonal `diag_embed` and the stacked
identities act channel by channel, so it is `normAdj` on every channel
slice. -/
def normAdj3 {c n : ℕ} (A : Fin c → Mat n) : Fin c → Mat n :=
  fun ch => normAdj (A ch)

/-- Multiply a square node matrix into a (node × time) feature slice,
the per-(batch, channel) action of `torch.matmul(A_i, x)`. -/
def matApply {n l : ℕ} (A : Mat n) (M : Fin n → Fin l → ℚ) :
    Fin n → Fin l → ℚ :=
  fun i t => ∑ j, A i j * M j t

/-- Batched `torch.matmul` of a rank-3 adjacency stack against a rank-4
feature tensor: channel `ch` of the adjacency acts on channel `ch` of
every batch element. -/
def matmul3 {b c n l : ℕ} (A : Fin c → Mat n) (x : Feat b c n l) :
    Feat b c n l :=
  fun bb ch => matApply (A ch) (x bb ch)

/-- Broadcast `torch.matmul` of a single rank-2 matrix against a rank-4
feature tensor: the same matrix acts on every (batch, channel) slice. -/
def matmul2 {b c n l : ℕ} (A : Mat n) (x : Feat b c n l) : Feat b c n l :=
  fun bb ch => matApply A (x bb ch)

/-- The blending step `beta * h_in + (1 - beta) * h` of
`InformationPropagtionLayer.forward`, applied entrywise. -/
def blend {b c n l : ℕ} (beta : ℚ) (hIn h : Feat b c n l) : Feat b c n l :=
  fun bb ch i t => beta * hIn bb ch i t + (1 - beta) * h bb ch i t

/-- `InformationPropagtionLayer.forward` with a rank-3 adjacency: it
normalizes its adjacency argument (whatever the caller already did to
it), propagates `x` through the result, and blends with `h_in`. -/
def ipl_forward3 {b c n l : ℕ} (x hIn : Feat b c n l)
    (A : Fin c → Mat n) (beta : ℚ) : Feat b c n l :=
  blend beta hIn (matmul3 (normAdj3 A) x)

/-- `InformationPropagtionLayer.forward` with a rank-2 adjacency. -/
def ipl_forward2 {b c n l : ℕ} (x hIn : Feat b c n l)
    (A : Mat n) (beta : ℚ) : Feat b c n l :=
  blend beta hIn (matmul2 (normAdj A) x)

/-- Transpose of a square matrix, `A.permute(0, 2, 1)` on one channel
slice. -/
def transposeM {n : ℕ} (A : Mat n) : Mat n := fun i j => A j i

/-- Square matrix product. -/
def mmulM {n : ℕ} (A B : Mat n) : Mat n := fun i j => ∑ p, A i p * B p j

/-- One step of the adjacency power-series evolution inside
`GraphConvolutionModule.forward`: `torch.bmm(A_tilde.permute(0,2,1), A)`
channel by channel. -/
def evolve {c n : ℕ} (At A : Fin c → Mat n) : Fin c → Mat n :=
  fun ch => mmulM (transposeM (At ch)) (A ch)

/-- The value of the local variable `A_tilde` in
`GraphConvolutionModule.forward` after `j` loop updates: `Atilde A 0` is
the normalization computed before the loop, and each loop iteration
replaces it by `evolve` of the previous value with the raw `A`. -/
def Atilde {c n : ℕ} (A : Fin c → Mat n) : ℕ → Fin c → Mat n
  | 0 => normAdj3 A
  | j + 1 => evolve (Atilde A j) A

/-- The entry `hiddens[i]` of the hop-state list built by
`GraphConvolutionModule.forward` with a rank-3 adjacency.  Index 0 is the
raw input; index 1 comes from the call `gcl(hiddens[-1], x, A_tilde)`
which omits the `beta` argument, so it uses the Python default
`beta = 0.5`; hop `i ≥ 2` uses the caller's `beta` and the evolved matrix
`Atilde A (i - 1)`. -/
def gcm_hidden {b c n l : ℕ} (A : Fin c → Mat n) (x : Feat b c n l)
    (beta : ℚ) : ℕ → Feat b c n l
  | 0 => x
  | 1 => ipl_forward3 x x (Atilde A 0) (1 / 2)
  | i + 2 => ipl_forward3 (gcm_hidden A x beta (i + 1)) x (Atilde A (i + 1)) beta

/-- Parameters of one `info_select` sublayer:
`nn.Conv2d(out_features, out_features, 1, 1, 0, 1, 1)` is an ungrouped
1×1 convolution, i.e. a channel-mixing affine map. -/
structure Conv1x1 (c : ℕ) where
  weight : Fin c → Fin c → ℚ
  bias : Fin c → ℚ

/-- Apply a 1×1 convolution to a rank-4 feature tensor. -/
def conv1x1 {b c n l : ℕ} (p : Conv1x1 c) (x : Feat b c n l) :
    Feat b c n l :=
  fun bb o i t => p.bias o + ∑ ch, p.weight o ch * x bb ch i t

/-- An adjacency argument of `GraphConvolutionModule.forward`, which the
shared `norm_adj` accepts at rank 2 or rank 3. -/
inductive AdjT (c n : ℕ) where
  | rank2 (A : Mat n)
  | rank3 (A : Fin c → Mat n)

/-- `GraphConvolutionModule.forward` with a rank-3 adjacency.  The
`1 ≤ k` guard models `getattr(self, 'gcl1')`: the constructor only
creates sublayers `gcl1 .. gclk`, so with `k = 0` the lookup raises
`AttributeError` before any computation.  Otherwise the output is the sum
of the per-hop `info_select` projections of all `k + 1` hop states. -/
def gcm_forward3 {b c n l : ℕ} (k : ℕ) (info : ℕ → Conv1x1 c)
    (x : Feat b c n l) (A : Fin c → Mat n) (beta : ℚ) :
    Option (Feat b c n l) :=
  if 1 ≤ k then
    some (fun bb ch i t =>
      ∑ hop ∈ Finset.range (k + 1),
        conv1x1 (info hop) (gcm_hidden A x beta hop) bb ch i t)
  else none

/-- `GraphConvolutionModule.forward` with a rank-2 adjacency.  With
`k = 0` the `gcl1` lookup raises as in the rank-3 case.  With `k ≥ 2`
the loop body evaluates `A_tilde.permute(0, 2, 1)` on a rank-2 tensor,
which raises a shape error.  Only `k = 1` completes: the output is
`info_select0(x) + info_select1(hop1)` where hop 1 again uses the default
`beta = 0.5` and renormalizes the already-normalized matrix. -/
def gcm_forward2 {b c n l : ℕ} (k : ℕ) (info : ℕ → Conv1x1 c)
    (x : Feat b c n l) (A : Mat n) (beta : ℚ) : Option (Feat b c n l) :=
  if k = 1 then
    some (fun bb ch i t =>
      conv1x1 (info 0) x bb ch i t
        + conv1x1 (info 1) (ipl_forward2 x x (normAdj A) (1 / 2)) bb ch i t)
  else none

/-- `GraphConvolutionModule.forward`, dispatching on the adjacency rank.
The unused `beta` of the rank-2 branch is faithful to the code: the only
completed rank-2 path (`k = 1`) never reads the caller's `beta`. -/
def gcm_forward {b c n l : ℕ} (k : ℕ) (info : ℕ → Conv1x1 c)
    (x : Feat b c n l) (At : AdjT c n) (beta : ℚ) : Option (Feat b c n l) :=
  match At with
  | .rank2 A => gcm_forward2 k info x A beta
  | .rank3 A => gcm_forward3 k info x A beta

/-- Parameters of one `nn.Linear(embedding_dim, embedding_dim)`. -/
structure LinearP (d : ℕ) where
  weight : Fin d → Fin d → ℚ
  bias : Fin d → ℚ

/-- Apply a linear layer to one embedding vector. -/
def applyLin {d : ℕ} (L : LinearP d) (v : Fin d → ℚ) : Fin d → ℚ :=
  fun p => (∑ q, L.weight p q * v q) + L.bias p

/-- Learned parameters of `AdjConstructor`: the two embedding tables, the
two linear maps, the saturation sharpness `alpha` and the sparsification
degree `top_k`. -/
structure AdjParams (nNodes dEmb : ℕ) where
  emb1 : Fin nNodes → Fin dEmb → ℚ
  emb2 : Fin nNodes → Fin dEmb → ℚ
  theta1 : LinearP dEmb
  theta2 : LinearP dEmb
  alpha : ℚ
  topK : ℕ

/-- The transformed source-role embedding of position `j` of the index
sequence: `tanh(alpha * theta1(emb1(idx)))`. -/
def embOut1 {nn d m : ℕ} (P : AdjParams nn d) (tanhFn : ℚ → ℚ)
    (idx : Fin m → Fin nn) (j : Fin m) : Fin d → ℚ :=
  fun p => tanhFn (P.alpha * applyLin P.theta1 (P.emb1 (idx j)) p)

/-- The transformed target-role embedding:
`tanh(alpha * theta2(emb2(idx)))`. -/
def embOut2 {nn d m : ℕ} (P : AdjParams nn d) (tanhFn : ℚ → ℚ)
    (idx : Fin m → Fin nn) (j : Fin m) : Fin d → ℚ :=
  fun p => tanhFn (P.alpha * applyLin P.theta2 (P.emb2 (idx j)) p)

/-- Entry `(i, j)` of `emb1 @ emb2.T - emb2 @ emb1.T`, the skew-style
raw pair score before the saturation and rectification. -/
def pairScoreRaw {nn d m : ℕ} (P : AdjParams nn d) (tanhFn : ℚ → ℚ)
    (idx : Fin m → Fin nn) (i j : Fin m) : ℚ :=
  (∑ p, embOut1 P tanhFn idx i p * embOut2 P tanhFn idx j p)
    - (∑ p, embOut2 P tanhFn idx i p * embOut1 P tanhFn idx j p)

/-- The pre-mask score matrix `adj_mat` of `AdjConstructor.forward`:
`relu(tanh(alpha * (emb1 @ emb2.T - emb2 @ emb1.T)))`. -/
def scoreMat {nn d m : ℕ} (P : AdjParams nn d) (tanhFn : ℚ → ℚ)
    (idx : Fin m → Fin nn) : Mat m :=
  fun i j => relu (tanhFn (P.alpha * pairScoreRaw P tanhFn idx i j))

/-- Strict priority order used to model `torch.topk` along a row `r`:
`a` beats `b` when its score is strictly larger, with ties broken towards
the smaller index.  Any fixed deterministic tie order is faithful here;
the theorems below depend only on the selected set having at most `k`
elements and on the selection being a function of the row. -/
def beats {m : ℕ} (r : Fin m → ℚ) (a b : Fin m) : Prop :=
  r b < r a ∨ (r a = r b ∧ a < b)

instance {m : ℕ} (r : Fin m → ℚ) (a b : Fin m) : Decidable (beats r a b) :=
  inferInstanceAs (Decidable (_ ∨ _))

/-- Number of entries that beat `j` in the row `r`. -/
def beatRank {m : ℕ} (r : Fin m → ℚ) (j : Fin m) : ℕ :=
  (Finset.univ.filter (fun a => beats r a j)).card

/-- The set of column indices `torch.topk(r, k)` keeps: those with fewer
than `k` entries ranked above them. -/
def topkSel {m : ℕ} (r : Fin m → ℚ) (k : ℕ) : Finset (Fin m) :=
  Finset.univ.filter (fun j => beatRank r j < k)

/-- The column set the scatter mask marks with 1 in row `i`: in training
mode the top-k of the jittered row `adj_mat + rand * 0.01`, in evaluation
mode the top-k of the row itself. -/
def adjSel {nn d m : ℕ} (P : AdjParams nn d) (tanhFn : ℚ → ℚ)
    (training : Bool) (rand : Fin m → Fin m → ℚ) (idx : Fin m → Fin nn)
    (i : Fin m) : Finset (Fin m) :=
  if training then
    topkSel (fun j => scoreMat P tanhFn idx i j + rand i j * (1 / 100)) P.topK
  else
    topkSel (fun j => scoreMat P tanhFn idx i j) P.topK

/-- The matrix `adj_mat * mask` that `AdjConstructor.forward` returns
when `torch.topk` succeeds. -/
def adjMatOut {nn d m : ℕ} (P : AdjParams nn d) (tanhFn : ℚ → ℚ)
    (training : Bool) (rand : Fin m → Fin m → ℚ) (idx : Fin m → Fin nn) :
    Mat m :=
  fun i j =>
    scoreMat P tanhFn idx i j
      * (if j ∈ adjSel P tanhFn training rand idx i then 1 else 0)

/-- `AdjConstructor.forward`.  `torch.topk(.., self.top_k, 1)` raises
when `top_k` exceeds the row length `m = idx.size(0)`, hence the guard. -/
def adjForward {nn d m : ℕ} (P : AdjParams nn d) (tanhFn : ℚ → ℚ)
    (training : Bool) (rand : Fin m → Fin m → ℚ) (idx : Fin m → Fin nn) :
    Option (Mat m) :=
  if P.topK ≤ m then some (adjMatOut P tanhFn training rand idx) else none

/-- Sum of the first `n` values of an integer-indexed row, used by the
shape-indexed normalization below. -/
def rowSumN (n : ℕ) (f : ℕ → ℚ) : ℚ := ∑ j ∈ Finset.range n, f j

/-- Shape-indexed view of the shared `norm_adj`: a tensor is a shape
(list of dimension sizes) together with an entry function on integer
multi-indices.  The `assert len(A.shape) == 3 or len(A.shape) == 2`
becomes the `Except.error` branch, carrying the assertion message. -/
def normAdjT (shape : List ℕ) (A : List ℕ → ℚ) :
    Except String (List ℕ → ℚ) :=
  match shape with
  | [_, _, m] =>
      Except.ok (fun ix =>
        match ix with
        | [ch, i, j] =>
            (1 / (1 + rowSumN m (fun jj => A [ch, i, jj])))
              * (A [ch, i, j] + if i = j then 1 else 0)
        | _ => 0)
  | [_, m] =>
      Except.ok (fun ix =>
        match ix with
        | [i, j] =>
            (1 / (1 + rowSumN m (fun jj => A [i, jj])))
              * (A [i, j] + if i = j then 1 else 0)
        | _ => 0)
  | _ =>
      Except.error
        "Improper shape of an adjacency matrix, must be either C x C or C x N x N"

/-- Rational identity function, used to instantiate the abstract
saturation nonlinearity in concrete evaluations. -/
def idQ : ℚ → ℚ := fun z => z

/-- Concrete feature tensor (batch 1, channel 1, 2 nodes, 1 time step)
holding the node vector (1, 0). -/
def xC : Feat 1 1 2 1 := fun _ _ i _ => if i = 0 then 1 else 0

/-- Concrete rank-3 adjacency stack (1 channel, 2 nodes) with a single
edge from node 1 into node 0's row. -/
def aC : Fin 1 → Mat 2 := fun _ => ![![0, 1], ![0, 0]]

/-- Concrete rank-2 adjacency on the same 2-node set. -/
def m2C : Mat 2 := fun _ _ => 0

/-- Zero-valued 1×1 convolution parameters for every hop. -/
def infoC : ℕ → Conv1x1 1 := fun _ => ⟨fun _ _ => 0, fun _ => 0⟩

/-- Concrete 3-node adjacency matrix with known degrees 1, 2, 0. -/
def a3nodes : Mat 3 := ![![0, 1, 0], ![1, 0, 1], ![0, 0, 0]]

/-- The 3-node matrix stacked into a single-channel rank-3 adjacency. -/
def a3stack : Fin 1 → Mat 3 := fun _ => a3nodes

/-- Concrete `AdjConstructor` parameters: one node, one embedding
dimension, all weights zero, `alpha = 0`, `top_k = 1`. -/
def pC : AdjParams 1 1 :=
  ⟨fun _ _ => 0, fun _ _ => 0, ⟨fun _ _ => 0, fun _ => 0⟩,
    ⟨fun _ _ => 0, fun _ => 0⟩, 0, 1⟩

/-- The identity index sequence on one node. -/
def idxC : Fin 1 → Fin 1 := fun j => j

/-- A concrete random draw (all zeros). -/
def randC : Fin 1 → Fin 1 → ℚ := fun _ _ => 0

/-- Transitivity of the top-k priority order. -/
theorem beats_trans {m : ℕ} (r : Fin m → ℚ) {a b c : Fin m}
    (h1 : beats r a b) (h2 : beats r b c) : beats r a c := by
  rcases h1 with h1 | ⟨e1, l1⟩ <;> rcases h2 with h2 | ⟨e2, l2⟩
  · exact Or.inl (h2.trans h1)
  · exact Or.inl (by rw [← e2]; exact h1)
  · exact Or.inl (by rw [e1]; exact h2)
  · exact Or.inr ⟨e1.trans e2, l1.trans l2⟩

/-- Irreflexivity of the top-k priority order. -/
theorem beats_irrefl {m : ℕ} (r : Fin m → ℚ) (a : Fin m) : ¬ beats r a a := by
  rintro (h | ⟨-, h⟩) <;> exact lt_irrefl _ h

/-- Totality of the top-k priority order on distinct indices. -/
theorem beats_total {m : ℕ} (r : Fin m → ℚ) {a b : Fin m} (h : a ≠ b) :
    beats r a b ∨ beats r b a := by
  rcases lt_trichotomy (r a) (r b) with hlt | heq | hgt
  · exact Or.inr (Or.inl hlt)
  · rcases h.lt_or_lt with hab | hba
    · exact Or.inl (Or.inr ⟨heq, hab⟩)
    · exact Or.inr (Or.inr ⟨heq.symm, hba⟩)
  · exact Or.inl (Or.inl hgt)

/-- A strictly better index has a strictly smaller rank. -/
theorem beatRank_lt_of_beats {m : ℕ} (r : Fin m → ℚ) {a b : Fin m}
    (h : beats r a b) : beatRank r a < beatRank r b := by
  have hsub : Finset.univ.filter (fun x => beats r x a)
      ⊆ Finset.univ.filter (fun x => beats r x b) := by
    intro x hx
    rw [Finset.mem_filter] at hx ⊢
    exact ⟨hx.1, beats_trans r hx.2 h⟩
  exact Finset.card_lt_card ((Finset.ssubset_iff_of_subset hsub).mpr
    ⟨a, Finset.mem_filter.mpr ⟨Finset.mem_univ a, h⟩,
      fun hmem => beats_irrefl r a (Finset.mem_filter.mp hmem).2⟩)

/-- The set `torch.topk` selects from a row has at most `k` elements,
whatever the row values (ties included). -/
theorem topkSel_card_le {m : ℕ} (r : Fin m → ℚ) (k : ℕ) :
    (topkSel r k).card ≤ k := by
  have h : (topkSel r k).card ≤ (Finset.range k).card :=
    Finset.card_le_card_of_injOn (beatRank r)
      (fun j hj => Finset.mem_range.mpr ((Finset.mem_filter.mp hj).2))
      (fun a _ b _ hab => by
        by_contra hne
        rcases beats_total r hne with hbeat | hbeat
        · exact absurd hab (Nat.ne_of_lt (beatRank_lt_of_beats r hbeat))
        · exact absurd hab.symm (Nat.ne_of_lt (beatRank_lt_of_beats r hbeat)))
  simpa using h

/-- Each row of the normalized adjacency sums to 1: the helper behind
claim C4, for one rank-2 matrix. -/
theorem normAdj_row_sum_one {n : ℕ} (A : Mat n) (hA : ∀ i j, 0 ≤ A i j)
    (i : Fin n) : ∑ j, normAdj A i j = 1 := by
  have hS : 0 ≤ rowSum A i := Finset.sum_nonneg (fun j _ => hA i j)
  have hpos : 0 < 1 + rowSum A i := by linarith
  unfold normAdj
  rw [← Finset.mul_sum]
  have hsum : ∑ j, (A i j + if i = j then 1 else 0) = rowSum A i + 1 := by
    rw [Finset.sum_add_distrib]
    unfold rowSum
    congr 1
    simp
  rw [hsum, add_comm (rowSum A i) 1, one_div_mul_cancel hpos.ne']

/-- C1 counterexample: with caller beta = 0 the hop-1 state produced by
`GraphConvolutionModule.forward` differs from the state the claim
predicts (`beta * h_in + (1 - beta) * h` with the caller's beta), because
the hop-1 call `gcl(hiddens[-1], x, A_tilde)` omits `beta` and therefore
uses the Python default 0.5.  Concretely the node-0 entry is 7/8 instead
of 3/4. -/
theorem gcm_hop1_ignores_caller_beta :
    gcm_hidden aC xC 0 1 ≠ ipl_forward3 xC xC (Atilde aC 0) 0 := by
  intro h
  have h0 := congrFun (congrFun (congrFun (congrFun h 0) 0) 0) 0
  norm_num [gcm_hidden, ipl_forward3, blend, matmul3, matApply, normAdj3,
    normAdj, rowSum, Atilde, aC, xC, Fin.sum_univ_two] at h0

/-- C1 amended: the caller's beta reaches hops 2..k only.  Hop 1 blends
with the fixed default coefficient 1/2 (and is therefore independent of
the caller's beta), while every hop `i + 2` blends the original input
`x` with the propagation of the previous state using the caller's
beta. -/
theorem gcm_beta_usage {b c n l : ℕ} (A : Fin c → Mat n) (x : Feat b c n l)
    (beta beta' : ℚ) :
    gcm_hidden A x beta 1 = blend (1 / 2) x (matmul3 (normAdj3 (normAdj3 A)) x)
  ∧ gcm_hidden A x beta 1 = gcm_hidden A x beta' 1
  ∧ ∀ i : ℕ, gcm_hidden A x beta (i + 2)
      = blend beta x (matmul3 (normAdj3 (Atilde A (i + 1)))
          (gcm_hidden A x beta (i + 1))) :=
  ⟨rfl, rfl, fun _ => rfl⟩

/-- C2 counterexample: at hop 2 the state actually computed differs from
what propagating the previous state through the evolved matrix
`transpose(A_tilde_prev) @ A_raw` directly (with no further
normalization) would give, because `InformationPropagtionLayer.forward`
normalizes its adjacency argument again.  Concretely the node-0 entry is
19/24 instead of 1/2. -/
theorem gcm_hop2_matrix_not_used_directly :
    gcm_hidden aC xC (1 / 2) 2
      ≠ blend (1 / 2) xC (matmul3 (Atilde aC 1) (gcm_hidden aC xC (1 / 2) 1)) := by
  intro h
  have h0 := congrFun (congrFun (congrFun (congrFun h 0) 0) 0) 0
  norm_num [gcm_hidden, ipl_forward3, blend, matmul3, matApply, normAdj3,
    normAdj, rowSum, Atilde, evolve, mmulM, transposeM, aC, xC,
    Fin.sum_univ_two] at h0

/-- C2 amended: for every hop `i + 2` the evolved matrix is
`transpose(A_tilde_prev) @ A_raw` as claimed, but it is not used
directly: the propagation layer applies the shared normalization
`norm_adj` to it before the matrix-vector propagation, so the matrix
actually multiplied against the previous hop's state is
`norm_adj(evolved)`. -/
theorem gcm_evolved_then_renormalized {b c n l : ℕ} (A : Fin c → Mat n)
    (x : Feat b c n l) (beta : ℚ) (i : ℕ) :
    Atilde A (i + 1) = evolve (Atilde A i) A
  ∧ gcm_hidden A x beta (i + 2)
      = blend beta x (matmul3 (normAdj3 (evolve (Atilde A i) A))
          (gcm_hidden A x beta (i + 1))) :=
  ⟨rfl, rfl⟩

/-- C3: a `GraphConvolutionModule` built with `k = 0` never completes a
forward pass, at either adjacency rank — `forward` unconditionally looks
up the sublayer `gcl1`, which the constructor (whose loop runs over
`range(1, k+1)`) never created, so the lookup raises `AttributeError`
before any output is produced.  The output therefore never equals the
input-hop projection `info_select0(x)` the claim (and the spec's k = 0
degenerate case) requires. -/
theorem gcm_forward_k0_errors {b c n l : ℕ} (info : ℕ → Conv1x1 c)
    (x : Feat b c n l) (At : AdjT c n) (beta : ℚ) :
    gcm_forward 0 info x At beta = none := by
  cases At <;> rfl

/-- C4: for a nonnegative adjacency of rank 2 or rank 3, `norm_adj` adds
the identity, rescales row `i` by `1 / (1 + rowsum(A) i)`, and every row
of the result sums to exactly 1 in exact arithmetic. -/
theorem norm_adj_rows_sum_to_one {n c : ℕ} (A2 : Mat n) (A3 : Fin c → Mat n)
    (h2 : ∀ i j, 0 ≤ A2 i j) (h3 : ∀ ch i j, 0 ≤ A3 ch i j) :
    (∀ i, ∑ j, normAdj A2 i j = 1) ∧ (∀ ch i, ∑ j, normAdj3 A3 ch i j = 1) :=
  ⟨fun i => normAdj_row_sum_one A2 h2 i,
    fun ch i => normAdj_row_sum_one (A3 ch) (h3 ch) i⟩

/-- C4 witness: rows of the normalized 3-node matrix with degrees
1, 2, 0 sum to 1, at rank 2 and stacked at rank 3. -/
theorem norm_adj_rows_sum_to_one_witness :
    (∑ j, normAdj a3nodes 0 j = 1) ∧ (∑ j, normAdj3 a3stack 0 1 j = 1) := by
  have h := norm_adj_rows_sum_to_one a3nodes a3stack (by decide) (by decide)
  exact ⟨h.1 0, h.2 0 1⟩

/-- C5: whenever `top_k` does not exceed the row length (the regime in
which `torch.topk` succeeds), `AdjConstructor.forward` returns the
masked matrix `adj_mat * mask`, and each of its rows has at most `top_k`
nonzero entries — in training mode (jittered selection) and evaluation
mode alike. -/
theorem adj_row_sparsity {nn d m : ℕ} (P : AdjParams nn d) (tanhFn : ℚ → ℚ)
    (training : Bool) (rand : Fin m → Fin m → ℚ) (idx : Fin m → Fin nn)
    (hk : P.topK ≤ m) (i : Fin m) :
    adjForward P tanhFn training rand idx
        = some (adjMatOut P tanhFn training rand idx)
  ∧ (Finset.univ.filter
        (fun j => adjMatOut P tanhFn training rand idx i j ≠ 0)).card
      ≤ P.topK := by
  constructor
  · unfold adjForward
    rw [if_pos hk]
  · have hsub : Finset.univ.filter
        (fun j => adjMatOut P tanhFn training rand idx i j ≠ 0)
        ⊆ adjSel P tanhFn training rand idx i := by
      intro j hj
      rw [Finset.mem_filter] at hj
      by_contra hnot
      exact hj.2 (by unfold adjMatOut; rw [if_neg hnot, mul_zero])
    refine le_trans (Finset.card_le_card hsub) ?_
    unfold adjSel
    split
    · exact topkSel_card_le _ _
    · exact topkSel_card_le _ _

/-- C5 witness: the sparsity theorem applied to the concrete one-node
constructor `pC` in evaluation mode. -/
theorem adj_row_sparsity_witness :
    pC.topK ≤ 1
  ∧ (adjForward pC idQ false randC idxC
        = some (adjMatOut pC idQ false randC idxC)
  ∧ (Finset.univ.filter
        (fun j => adjMatOut pC idQ false randC idxC (0 : Fin 1) j ≠ 0)).card
      ≤ pC.topK) :=
  ⟨by decide, adj_row_sparsity pC idQ false randC idxC (by decide) 0⟩

/-- C6: since `tanh` is odd, the pre-mask score matrix is a ReLU of an
antisymmetric matrix: the raw pair score is antisymmetric, the diagonal
of the score matrix is zero, and for every ordered pair at most one of
the two directions carries a nonzero score; both zero-location
properties survive the top-k masking that produces the returned
matrix. -/
theorem adj_score_antisym {nn d m : ℕ} (P : AdjParams nn d)
    (tanhFn : ℚ → ℚ) (idx : Fin m → Fin nn)
    (hodd : ∀ y : ℚ, tanhFn (-y) = - tanhFn y) :
    (∀ i j, pairScoreRaw P tanhFn idx j i = - pairScoreRaw P tanhFn idx i j)
  ∧ (∀ i, scoreMat P tanhFn idx i i = 0)
  ∧ (∀ i j, scoreMat P tanhFn idx i j = 0 ∨ scoreMat P tanhFn idx j i = 0)
  ∧ (∀ (training : Bool) (rand : Fin m → Fin m → ℚ),
      (∀ i, adjMatOut P tanhFn training rand idx i i = 0)
    ∧ (∀ i j, adjMatOut P tanhFn training rand idx i j = 0
          ∨ adjMatOut P tanhFn training rand idx j i = 0)) := by
  have hanti : ∀ i j,
      pairScoreRaw P tanhFn idx j i = - pairScoreRaw P tanhFn idx i j := by
    intro i j
    unfold pairScoreRaw
    have hx : (∑ p, embOut1 P tanhFn idx j p * embOut2 P tanhFn idx i p)
        = ∑ p, embOut2 P tanhFn idx i p * embOut1 P tanhFn idx j p :=
      Finset.sum_congr rfl (fun p _ => mul_comm _ _)
    have hy : (∑ p, embOut2 P tanhFn idx j p * embOut1 P tanhFn idx i p)
        = ∑ p, embOut1 P tanhFn idx i p * embOut2 P tanhFn idx j p :=
      Finset.sum_congr rfl (fun p _ => mul_comm _ _)
    rw [hx, hy]
    ring
  have h0 : tanhFn 0 = 0 := by
    have h := hodd 0
    rw [neg_zero] at h
    linarith
  have hdiag : ∀ i, scoreMat P tanhFn idx i i = 0 := by
    intro i
    have hz : pairScoreRaw P tanhFn idx i i = 0 := by
      have := hanti i i
      linarith
    unfold scoreMat
    rw [hz, mul_zero, h0]
    simp [relu]
  have hor : ∀ i j,
      scoreMat P tanhFn idx i j = 0 ∨ scoreMat P tanhFn idx j i = 0 := by
    intro i j
    rcases le_total (tanhFn (P.alpha * pairScoreRaw P tanhFn idx i j)) 0 with
      hle | hge
    · left
      unfold scoreMat relu
      exact max_eq_right hle
    · right
      unfold scoreMat relu
      rw [hanti i j, mul_neg, hodd]
      exact max_eq_right (by linarith)
  refine ⟨hanti, hdiag, hor, fun training rand => ⟨?_, ?_⟩⟩
  · intro i
    unfold adjMatOut
    rw [hdiag i, zero_mul]
  · intro i j
    rcases hor i j with h | h
    · left
      unfold adjMatOut
      rw [h, zero_mul]
    · right
      unfold adjMatOut
      rw [h, zero_mul]

/-- C6 witness: the antisymmetry theorem applied to the concrete
constructor `pC` with the identity in place of `tanh` (odd by `rfl`),
evaluated at the diagonal entry. -/
theorem adj_score_antisym_witness : scoreMat pC idQ idxC 0 0 = 0 :=
  (adj_score_antisym pC idQ idxC (fun _ => rfl)).2.1 0

/-- C7: in evaluation mode the constructor is a function of the
parameters and the index sequence only — two forward passes with
arbitrary, possibly different, random draws return the same matrix, so
no random perturbation enters the computation. -/
theorem adj_eval_deterministic {nn d m : ℕ} (P : AdjParams nn d)
    (tanhFn : ℚ → ℚ) (rand1 rand2 : Fin m → Fin m → ℚ)
    (idx : Fin m → Fin nn) :
    adjForward P tanhFn false rand1 idx
      = adjForward P tanhFn false rand2 idx := rfl

/-- C8: at beta = 1 the propagation layer returns `h_in` exactly, and at
beta = 0 it returns exactly the propagated term `norm_adj(A) @ x`, for
rank-3 and rank-2 adjacencies alike. -/
theorem ipl_beta_boundary {b c n l : ℕ} (x hIn : Feat b c n l)
    (A3 : Fin c → Mat n) (A2 : Mat n) :
    ipl_forward3 x hIn A3 1 = hIn
  ∧ ipl_forward2 x hIn A2 1 = hIn
  ∧ ipl_forward3 x hIn A3 0 = matmul3 (normAdj3 A3) x
  ∧ ipl_forward2 x hIn A2 0 = matmul2 (normAdj A2) x := by
  refine ⟨?_, ?_, ?_, ?_⟩ <;>
    · funext bb ch i t
      simp [ipl_forward3, ipl_forward2, blend]

/-- C9 counterexample: the claim promises completion for every k ≥ 0 and
every adjacency of rank 2 or 3, but with a rank-2 adjacency and k = 2
the loop body evaluates `A_tilde.permute(0, 2, 1)` on a 2-dimensional
tensor, which raises, so forward does not complete. -/
theorem gcm_rank2_k2_errors :
    gcm_forward 2 infoC xC (AdjT.rank2 m2C) (1 / 2) = none := rfl

/-- C9 amended: forward completes — with an output of the same shape as
`x`, which the result type `Feat b c n l` records — exactly for k ≥ 1
with a rank-3 adjacency and for k = 1 with a rank-2 adjacency; a rank-2
adjacency with k ≥ 2 fails in the transpose of the evolution step (and
k = 0 always fails on the `gcl1` lookup). -/
theorem gcm_forward_domain {b c n l : ℕ} (k : ℕ) (info : ℕ → Conv1x1 c)
    (x : Feat b c n l) (A3 : Fin c → Mat n) (A2 : Mat n) (beta : ℚ)
    (hk : 1 ≤ k) :
    (gcm_forward k info x (AdjT.rank3 A3) beta).isSome = true
  ∧ (gcm_forward 1 info x (AdjT.rank2 A2) beta).isSome = true
  ∧ (2 ≤ k → gcm_forward k info x (AdjT.rank2 A2) beta = none) := by
  refine ⟨?_, rfl, ?_⟩
  · show (gcm_forward3 k info x A3 beta).isSome = true
    unfold gcm_forward3
    rw [if_pos hk]
    rfl
  · intro h2
    show gcm_forward2 k info x A2 beta = none
    unfold gcm_forward2
    rw [if_neg (by omega)]

/-- C9 witness: the domain theorem applied at k = 2 with the concrete
tensors. -/
theorem gcm_forward_domain_witness :
    (gcm_forward 2 infoC xC (AdjT.rank3 aC) (1 / 2)).isSome = true
  ∧ gcm_forward 2 infoC xC (AdjT.rank2 (fun _ _ => 0)) (1 / 2) = none := by
  have h := gcm_forward_domain 2 infoC xC aC (fun _ _ => 0) (1 / 2) (by decide)
  exact ⟨h.1, h.2.2 (by decide)⟩

/-- C10: the shape-indexed shared normalization succeeds exactly when
the adjacency rank is 2 or 3, and otherwise fails fast with the shape
assertion error. -/
theorem norm_adj_rank_guard (shape : List ℕ) (A : List ℕ → ℚ) :
    (∃ f, normAdjT shape A = Except.ok f)
      ↔ (shape.length = 2 ∨ shape.length = 3) := by
  match shape with
  | [] => simp [normAdjT]
  | [a] => simp [normAdjT]
  | [a, b] => simp [normAdjT]
  | [a, b, c] => simp [normAdjT]
  | a :: b :: c :: d :: tl =>
    simp only [normAdjT, List.length_cons]
    constructor
    · rintro ⟨f, hf⟩
      cases hf
    · intro h
      omega

end SKT
